import Mathlib

/-!
Verification development for the fb-auth insights extraction pipeline.

The embedded program is the extraction/fan-out/load script
(`src/unnamed/part_000`): it resolves ad accounts, lists ads, fans out one
insights request per (ad × period × breakdown combination), and loads each
resulting record into a warehouse table keyed by its (period, breakdown)
pair.

Conventions of the embedding:
* The remote Graph API is an oracle (`GraphApi`): one field per endpoint
  family the script consumes.  Endpoints whose failure no claim depends on
  are total; the insights endpoint is fallible (`Except`), since the
  fan-out's failure behaviour is under scrutiny.
* A rejected promise is an `Except.error`; `await`-propagation of a
  rejection out of a batch is the `Except` bind.
* `paralellize` (from `lib/utils`, not under `src/`) is modelled from the
  spec: functionally, a map over the collection; its bounded-concurrency
  scheduling is modelled separately by `Executor`.
* The per-record load loop (lines 85–98 of the script) gets two views
  derived from the same lines: a value/error view (`loadOne`, `loadAll`)
  and a schedule view of its synchronous phase (`loadPhaseACalls`), which
  records the `getTable` calls issued before any `await` resolves.
-/

/-- Opaque parsed payload of one insights response; the script never
inspects it, it only stores it on the record. -/
abbrev Insights := String

/-- Opaque column schema, as stored in the registry `zodSchemas.schemas`. -/
abbrev Schema := String

/-- Cause carried by a failed remote call. -/
abbrev ApiCause := String

/-- An entry of `/me/businesses`: the script reads only `id` (line 43). -/
structure Business where
  id : String
deriving DecidableEq, Repr

/-- An entry of an ad-account listing: the script reads only `id`
(lines 43, 64). -/
structure AdAccount where
  id : String
deriving DecidableEq, Repr

/-- An entry of `/{accountId}/ads`: the script reads `id` and `account_id`
(lines 64, 73–74). -/
structure Ad where
  id : String
  account_id : String
deriving DecidableEq, Repr

/-- `AD_ACCOUNT_SOURCES.personal` (line 13). -/
def AD_ACCOUNT_SOURCES_personal : String := "personal"

/-- `AD_ACCOUNT_SOURCES.business` (line 14). -/
def AD_ACCOUNT_SOURCES_business : String := "business"

/-- `Object.keys(PERIODS)` for the object literal at lines 17–20. -/
def PERIODS_keys : List String := ["daily", "lifetime"]

/-- The `BREAKDOWNS` constant (lines 22–25). -/
def BREAKDOWNS : List (List String) := [["age", "gender"], ["country", "region"]]

/-- The payload object built by `fetchAdInsights` (lines 50–57): `fields`
and `breakdowns` always, `time_increment = 1` added only when the period
is daily. -/
structure InsightsPayload where
  fields : List String
  breakdowns : List String
  time_increment : Option Nat
deriving DecidableEq, Repr

/-- Lines 51–57 of the script.  `metrics` stands for
`Object.keys(zodSchemas.metrics)`, the fixed metric list from
`lib/zod-shemas` (not under `src/`), passed as a parameter here. -/
def insightsPayload (metrics : List String) (period : String)
    (breakdowns : List String) : InsightsPayload :=
  { fields := metrics
    breakdowns := breakdowns
    time_increment := if period = "daily" then some 1 else none }

/-- Oracle for the remote Graph API, one field per endpoint family used by
the script: `/me/adaccounts`, `/me/businesses`,
`/{businessId}/owned_ad_accounts`, `/{accountId}/ads`,
`/{adId}/insights`. -/
structure GraphApi where
  meAdaccounts : List AdAccount
  meBusinesses : List Business
  ownedAdAccounts : String → List AdAccount
  accountAds : String → List Ad
  adInsights : String → InsightsPayload → Except ApiCause Insights

/-- Modelled from the spec: `paralellize` from `lib/utils` is not under
`src/`.  Per §5 it executes `f` on every element of the collection under
a bounded concurrency cap; its result value is the per-element results in
input order (JS `Promise.all` preserves index order), i.e. functionally a
map.  The concurrency cap itself is modelled by `Executor` below. -/
def paralellize {α β : Type} (xs : List α) (f : α → β) : List β := xs.map f

/-- Failure of account resolution.  The script throws
`new Error('Unknown ad accounts source ' + source)` (line 45); the spec's
error taxonomy names this failure mode `UnknownSourceError`. -/
inductive ResolveError where
  | UnknownSourceError (source : String) (message : String)
deriving DecidableEq, Repr

/-- `fetchAdAccounts` (lines 37–47), paired with the list of remote paths
it calls, in issue order.  The `switch` on `source` becomes an `if` chain.
For the business arm the per-business results are merged into a single
flat sequence; the merge is modelled from the spec (§4.2: results "are
merged into a single flat sequence"), since it lives in the missing
`paralellize` / its call protocol rather than under `src/`. -/
def fetchAdAccounts (g : GraphApi) (source : String) :
    Except ResolveError (List AdAccount) × List String :=
  if source = AD_ACCOUNT_SOURCES_personal then
    (Except.ok g.meAdaccounts, ["/me/adaccounts"])
  else if source = AD_ACCOUNT_SOURCES_business then
    (Except.ok ((paralellize g.meBusinesses (fun b => g.ownedAdAccounts b.id)).flatten),
      "/me/businesses" :: g.meBusinesses.map (fun b => "/" ++ b.id ++ "/owned_ad_accounts"))
  else
    (Except.error (ResolveError.UnknownSourceError source
      ("Unknown ad accounts source " ++ source)), [])

/-- `fetchAdInsights` (lines 49–59): one call to `/{adId}/insights` with
the payload built by `insightsPayload`. -/
def fetchAdInsights (g : GraphApi) (metrics : List String) (adId period : String)
    (breakdowns : List String) : Except ApiCause Insights :=
  g.adInsights adId (insightsPayload metrics period breakdowns)

/-- One unit of fan-out work: the identifiers of a single insights call. -/
structure InsightRequest where
  adId : String
  period : String
  breakdowns : List String
deriving DecidableEq, Repr

/-- Modelled from the spec: the error with which the fan-out aborts when a
unit fails permanently (§4.4 `FanoutError{failedRequest, cause}`).  The
wrapping lives in the missing `lib/utils` / `src/remote` code; under
`src/` the rejection simply propagates out of the awaited batch. -/
structure FanoutError where
  failedRequest : InsightRequest
  cause : ApiCause
deriving DecidableEq, Repr

/-- The record object built at lines 71–78 of the script. -/
structure InsightRecord where
  user_id : String
  ad_account_id : String
  ad_id : String
  period : String
  breakdowns : List String
  insights : Insights
deriving DecidableEq, Repr

/-- The body of the innermost `paralellize` (lines 70–79): one insights
call, wrapped into a self-describing record; a rejection aborts the unit,
carrying the failing request. -/
def insightRecordFor (g : GraphApi) (metrics : List String) (userId : String)
    (period : String) (bd : List String) (ad : Ad) :
    Except FanoutError InsightRecord :=
  match fetchAdInsights g metrics ad.id period bd with
  | Except.error e => Except.error ⟨⟨ad.id, period, bd⟩, e⟩
  | Except.ok v =>
    Except.ok { user_id := userId, ad_account_id := ad.account_id, ad_id := ad.id,
                period := period, breakdowns := bd, insights := v }

/-- `brokenDownInsights` (lines 67–80): three nested `paralellize` layers
(periods outer, breakdown combinations middle, ads inner), flattened.  The
script applies `.flat()` four times; on the typed value two flattens fully
flatten it and the remaining two are the identity on an already-flat array
of (non-array) records, so they are omitted.  In the script the constants
`Object.keys(PERIODS)`, `BREAKDOWNS` and the resolved `ads` feed this
expression; they are parameters here so the size law can be stated for
every instantiation. -/
def brokenDownInsights (g : GraphApi) (metrics : List String) (userId : String)
    (periods : List String) (bds : List (List String)) (ads : List Ad) :
    Except FanoutError (List InsightRecord) := do
  let nested ← periods.mapM (fun period => do
    let mid ← bds.mapM (fun bd => ads.mapM (insightRecordFor g metrics userId period bd))
    pure mid.flatten)
  pure nested.flatten

/-- The correlation key of a record: (adId, period, breakdowns). -/
def insightKey (r : InsightRecord) : String × String × List String :=
  (r.ad_id, r.period, r.breakdowns)

/-- `breakdowns.flatten('_')` (line 88). -/
def breakdownName (breakdowns : List String) : String :=
  String.intercalate "_" breakdowns

/-- The table name computed at line 89 of the script:
`facebook_ads_insights_${period}_${breakdownName}`. -/
def recordTableName (period : String) (breakdowns : List String) : String :=
  "facebook_ads_insights_" ++ period ++ "_" ++ breakdownName breakdowns

/-- The fully qualified name computed at line 91:
`${config.projectId}.facebook_ads_insights.${tableName}` — the dataset is
the fixed string `facebook_ads_insights`. -/
def fullyQualifiedTableName (projectId tableName : String) : String :=
  projectId ++ ".facebook_ads_insights." ++ tableName

/-- The table-name pattern as the spec words it (§4.5, §6):
`ads_insights_{period}_{breakdowns joined by underscore}`.  Stated only to
be compared against `recordTableName`, the name the code computes. -/
def specTableName (period : String) (breakdowns : List String) : String :=
  "ads_insights_" ++ period ++ "_" ++ breakdownName breakdowns

/-- A provisioned warehouse table, as returned by `bigQuery.getTable`. -/
structure TableHandle where
  qualifiedName : String
  schema : Schema
deriving DecidableEq, Repr

/-- Oracle for the warehouse client (`lib/bigquery`, not under `src/`):
`getTable` is the get-or-create call of line 93, deterministic in its
arguments. -/
structure WarehouseClient where
  projectId : String
  getTable : String → Schema → TableHandle

/-- One `table.insert(data)` call (line 97): which handle received which
record. -/
structure InsertCall where
  table : TableHandle
  record : InsightRecord
deriving DecidableEq, Repr

/-- Failure of the load stage.  Modelled from the spec: when
`zodSchemas.schemas[tableName]` (line 92) has no entry for the computed
name, the load fails with `UnknownSchemaError` (§4.5); the raising itself
lives in the missing `lib` code (the script would pass `undefined` on to
`bigQuery.getTable`). -/
inductive LoadError where
  | UnknownSchemaError (tableName : String)
deriving DecidableEq, Repr

/-- Value/error view of one iteration of the load loop (lines 87–97):
compute the table name, consult the cache, on a miss resolve the schema
(failing if absent) and get-or-create the table, then insert.  Returns the
updated cache and the insert call performed. -/
def loadOne (w : WarehouseClient) (schemas : String → Option Schema)
    (cache : List (String × TableHandle)) (r : InsightRecord) :
    Except LoadError (List (String × TableHandle) × InsertCall) :=
  let tname := recordTableName r.period r.breakdowns
  match cache.lookup tname with
  | some t => Except.ok (cache, ⟨t, r⟩)
  | none =>
    match schemas tname with
    | none => Except.error (LoadError.UnknownSchemaError tname)
    | some s =>
      let t := w.getTable (fullyQualifiedTableName w.projectId tname) s
      Except.ok ((tname, t) :: cache, ⟨t, r⟩)

/-- Value/error view of the whole load batch (lines 85–98): every record
processed, threading the table cache; any failing record aborts the run
(`await Promise.all` rejects). -/
def loadAll (w : WarehouseClient) (schemas : String → Option Schema) :
    List (String × TableHandle) → List InsightRecord →
    Except LoadError (List InsertCall)
  | _, [] => Except.ok []
  | cache, r :: rs => do
    let (cache2, call) ← loadOne w schemas cache r
    let calls ← loadAll w schemas cache2 rs
    pure (call :: calls)

/-- Schedule view of the synchronous phase of the load batch.  Line 86
runs `brokenDownInsights.map(async (data) => ...)`: each async body
executes synchronously up to its first `await`, which is the
`bigQuery.getTable` call at line 93; the cache write `tables[tableName] =
table` (line 94) runs only after that `await` resolves, i.e. in a later
event-loop turn, strictly after every body has executed its synchronous
prefix.  Hence every body performs the `if (!tables[tableName])` check
(line 90) against the cache's initial state — the cache argument below is
deliberately not threaded.  The result is the list of `getTable` calls
issued (by table name) before any of them resolves. -/
def loadPhaseACalls (cache0 : List String) : List InsightRecord → List String
  | [] => []
  | r :: rs =>
    let tname := recordTableName r.period r.breakdowns
    (if cache0.contains tname then [] else [tname]) ++ loadPhaseACalls cache0 rs

/-- Scheduling discipline of one map-over-collection batch. -/
inductive Executor where
  | bounded (limit : Nat)
  | unbounded
deriving DecidableEq, Repr

/-- How many units of a batch of `n` are started (in flight) before the
first completion: a bounded executor starts at most `limit`, an unbounded
one starts all `n`. -/
def Executor.initialInFlight : Executor → Nat → Nat
  | Executor.bounded c, n => min c n
  | Executor.unbounded, n => n

/-- The business → owned-ad-accounts expansion (line 43) runs through
`paralellize`.  Modelled from the spec: §5 makes `paralellize` a bounded
executor with a configurable limit. -/
def businessExpansionExecutor (limit : Nat) : Executor := Executor.bounded limit

/-- The account → ads expansion (line 64) runs through `paralellize`. -/
def adsExpansionExecutor (limit : Nat) : Executor := Executor.bounded limit

/-- The insights fan-out (lines 67–80) runs through nested `paralellize`. -/
def fanoutExecutor (limit : Nat) : Executor := Executor.bounded limit

/-- The per-record warehouse insertion (line 86) runs through
`await Promise.all(records.map(async ...))` — all bodies started at once,
no cap. -/
def insertionExecutor : Executor := Executor.unbounded

/-- Decidable equality for `Except`, used to evaluate the embedding on
concrete inputs. -/
instance {ε α : Type} [DecidableEq ε] [DecidableEq α] : DecidableEq (Except ε α)
  | Except.error e, Except.error f =>
    if h : e = f then isTrue (by rw [h]) else isFalse (fun hc => h (by cases hc; rfl))
  | Except.error _, Except.ok _ => isFalse (fun hc => Except.noConfusion hc)
  | Except.ok _, Except.error _ => isFalse (fun hc => Except.noConfusion hc)
  | Except.ok a, Except.ok b =>
    if h : a = b then isTrue (by rw [h]) else isFalse (fun hc => h (by cases hc; rfl))

/-- The (adId, period, breakdowns) keys of the full fan-out matrix, in the
order the nesting of `brokenDownInsights` produces them. -/
def fanoutKeys (periods : List String) (bds : List (List String)) (ads : List Ad) :
    List (String × String × List String) :=
  periods.flatMap (fun period =>
    bds.flatMap (fun bd => ads.map (fun ad => (ad.id, period, bd))))

/-- Every handle stored in the table cache was obtained from `getTable`
for its own key's fully qualified name, with the registered schema. -/
def cacheConsistent (w : WarehouseClient) (schemas : String → Option Schema)
    (cache : List (String × TableHandle)) : Prop :=
  ∀ p ∈ cache, ∃ s, schemas p.1 = some s ∧
    p.2 = w.getTable (fullyQualifiedTableName w.projectId p.1) s

/-- Sample ad used to evaluate the embedding on concrete inputs. -/
def adW : Ad := { id := "ad1", account_id := "acct1" }

/-- Sample Graph API world: one personal account, two businesses owning
one account each, insights calls all succeeding. -/
def gW : GraphApi :=
  { meAdaccounts := [{ id := "acct1" }]
    meBusinesses := [{ id := "b1" }, { id := "b2" }]
    ownedAdAccounts := fun i =>
      if i = "b1" then [{ id := "acct1" }]
      else if i = "b2" then [{ id := "acct2" }]
      else []
    accountAds := fun i => if i = "acct1" then [adW] else []
    adInsights := fun _ _ => Except.ok "v" }

/-- Same world, but every insights call fails permanently. -/
def gFail : GraphApi := { gW with adInsights := fun _ _ => Except.error "boom" }

/-- The four records the fan-out produces for one ad under the configured
periods and breakdown combinations, in production order. -/
def recsW : List InsightRecord :=
  [{ user_id := "u", ad_account_id := "acct1", ad_id := "ad1", period := "daily",
     breakdowns := ["age", "gender"], insights := "v" },
   { user_id := "u", ad_account_id := "acct1", ad_id := "ad1", period := "daily",
     breakdowns := ["country", "region"], insights := "v" },
   { user_id := "u", ad_account_id := "acct1", ad_id := "ad1", period := "lifetime",
     breakdowns := ["age", "gender"], insights := "v" },
   { user_id := "u", ad_account_id := "acct1", ad_id := "ad1", period := "lifetime",
     breakdowns := ["country", "region"], insights := "v" }]

/-- Sample record: (daily, [age, gender]). -/
def rAG : InsightRecord :=
  { user_id := "u", ad_account_id := "acct1", ad_id := "ad1", period := "daily",
    breakdowns := ["age", "gender"], insights := "v" }

/-- A second record for the same (daily, [age, gender]) table. -/
def rAG2 : InsightRecord := { rAG with ad_id := "ad2" }

/-- Sample warehouse client with a deterministic get-or-create. -/
def w0 : WarehouseClient :=
  { projectId := "proj", getTable := fun n s => { qualifiedName := n, schema := s } }

/-- A schema registry with no entries. -/
def schemasNone : String → Option Schema := fun _ => none

/-- A schema registry covering every table name. -/
def schemasAll : String → Option Schema := fun _ => some "sch"

/-- The insert calls `loadAll w0 schemasAll [] [rAG]` performs. -/
def callsW : List InsertCall :=
  [{ table := { qualifiedName := "proj.facebook_ads_insights.facebook_ads_insights_daily_age_gender",
                schema := "sch" },
     record := rAG }]

theorem exceptBind_ok {ε α β : Type} (x : Except ε α) (g : α → Except ε β) (c : β) :
    (x >>= g) = Except.ok c ↔ ∃ b, x = Except.ok b ∧ g b = Except.ok c := by
  cases x <;> simp [Bind.bind, Except.bind]

theorem exceptBind_error {ε α β : Type} (x : Except ε α) (g : α → Except ε β) (e : ε) :
    (x >>= g) = Except.error e ↔
      x = Except.error e ∨ ∃ b, x = Except.ok b ∧ g b = Except.error e := by
  cases x <;> simp [Bind.bind, Except.bind]

theorem exceptPure_ok {ε α : Type} (a b : α) :
    (pure a : Except ε α) = Except.ok b ↔ a = b := by
  simp [pure, Except.pure]

theorem exceptPure_ne_error {ε α : Type} (a : α) (e : ε) :
    (pure a : Except ε α) ≠ Except.error e := by
  simp [pure, Except.pure]

theorem mapM_ok_forall₂ {ε α β : Type} (f : α → Except ε β) :
    ∀ (xs : List α) (ys : List β), xs.mapM f = Except.ok ys →
      List.Forall₂ (fun x y => f x = Except.ok y) xs ys := by
  intro xs
  induction xs with
  | nil =>
    intro ys h
    rw [List.mapM_nil] at h
    rw [exceptPure_ok] at h
    subst h
    exact List.Forall₂.nil
  | cons x xs ih =>
    intro ys h
    rw [List.mapM_cons] at h
    rcases (exceptBind_ok _ _ _).mp h with ⟨b, hb, h2⟩
    rcases (exceptBind_ok _ _ _).mp h2 with ⟨t, ht, h3⟩
    rw [exceptPure_ok] at h3
    subst h3
    exact List.Forall₂.cons hb (ih t ht)

theorem mapM_error_exists {ε α β : Type} (f : α → Except ε β) :
    ∀ (xs : List α) (e : ε), xs.mapM f = Except.error e →
      ∃ x ∈ xs, f x = Except.error e := by
  intro xs
  induction xs with
  | nil =>
    intro e h
    rw [List.mapM_nil] at h
    exact absurd h (exceptPure_ne_error _ _)
  | cons x xs ih =>
    intro e h
    rw [List.mapM_cons] at h
    rcases (exceptBind_error _ _ _).mp h with h1 | ⟨b, _, h2⟩
    · exact ⟨x, List.mem_cons_self x xs, h1⟩
    · rcases (exceptBind_error _ _ _).mp h2 with h3 | ⟨t, _, h4⟩
      · rcases ih _ h3 with ⟨y, hy, hfy⟩
        exact ⟨y, List.mem_cons_of_mem _ hy, hfy⟩
      · exact absurd h4 (exceptPure_ne_error _ _)

theorem forall₂_map_eq {α β γ : Type} {R : α → β → Prop} {k : β → γ} {h : α → γ}
    (hk : ∀ x y, R x y → k y = h x) :
    ∀ {xs : List α} {ys : List β}, List.Forall₂ R xs ys →
      ys.map k = xs.map h := by
  intro xs ys hf
  induction hf with
  | nil => rfl
  | cons hxy _ ih => simp only [List.map_cons, ih, hk _ _ hxy]

theorem forall₂_mem_left {α β : Type} {R : α → β → Prop} :
    ∀ {xs : List α} {ys : List β}, List.Forall₂ R xs ys →
      ∀ {x}, x ∈ xs → ∃ y ∈ ys, R x y := by
  intro xs ys hf
  induction hf with
  | nil => intro x hx; cases hx
  | cons hxy _ ih =>
    intro x hx
    rcases List.mem_cons.mp hx with rfl | hx2
    · exact ⟨_, List.mem_cons_self _ _, hxy⟩
    · rcases ih hx2 with ⟨y, hy, hR⟩
      exact ⟨y, List.mem_cons_of_mem _ hy, hR⟩

theorem sum_map_constant {α : Type} (l : List α) (c : Nat) :
    (l.map (fun _ => c)).sum = l.length * c := by
  induction l with
  | nil => simp
  | cons x xs ih => simp [ih, Nat.succ_mul, Nat.add_comm]

theorem lookup_mem {β : Type} :
    ∀ {l : List (String × β)} {k : String} {v : β},
      l.lookup k = some v → (k, v) ∈ l := by
  intro l
  induction l with
  | nil => intro k v h; simp [List.lookup] at h
  | cons p l ih =>
    intro k v h
    obtain ⟨a, b⟩ := p
    rw [List.lookup_cons] at h
    cases hab : (k == a) with
    | true =>
      rw [hab] at h
      simp at h
      subst h
      have : k = a := by simpa using hab
      subst this
      exact List.mem_cons_self _ _
    | false =>
      rw [hab] at h
      simp at h
      exact List.mem_cons_of_mem _ (ih h)

theorem insightRecordFor_ok_key {g : GraphApi} {metrics : List String} {userId : String}
    {period : String} {bd : List String} {ad : Ad} {r : InsightRecord}
    (h : insightRecordFor g metrics userId period bd ad = Except.ok r) :
    insightKey r = (ad.id, period, bd) := by
  unfold insightRecordFor at h
  cases hf : fetchAdInsights g metrics ad.id period bd with
  | error e => rw [hf] at h; cases h
  | ok v => rw [hf] at h; cases h; rfl

theorem brokenDownInsights_ok_keys {g : GraphApi} {metrics : List String} {userId : String}
    {periods : List String} {bds : List (List String)} {ads : List Ad}
    {recs : List InsightRecord}
    (h : brokenDownInsights g metrics userId periods bds ads = Except.ok recs) :
    recs.map insightKey = fanoutKeys periods bds ads := by
  unfold brokenDownInsights at h
  rcases (exceptBind_ok _ _ _).mp h with ⟨nested, hn, hp⟩
  rw [exceptPure_ok] at hp
  subst hp
  rw [fanoutKeys, List.flatMap_def, List.map_flatten]
  congr 1
  refine forall₂_map_eq ?_ (mapM_ok_forall₂ _ _ _ hn)
  intro period l hmid
  rcases (exceptBind_ok _ _ _).mp hmid with ⟨m, hm, hp2⟩
  rw [exceptPure_ok] at hp2
  subst hp2
  rw [List.flatMap_def, List.map_flatten]
  congr 1
  refine forall₂_map_eq ?_ (mapM_ok_forall₂ _ _ _ hm)
  intro bd li hinner
  refine forall₂_map_eq ?_ (mapM_ok_forall₂ _ _ _ hinner)
  intro ad r hrec
  exact insightRecordFor_ok_key hrec

theorem fanoutKeys_length (periods : List String) (bds : List (List String)) (ads : List Ad) :
    (fanoutKeys periods bds ads).length = periods.length * (bds.length * ads.length) := by
  unfold fanoutKeys
  rw [List.length_flatMap]
  have h1 : List.map
      (List.length ∘ fun period => bds.flatMap fun bd => ads.map fun ad => (ad.id, period, bd))
      periods = periods.map (fun _ => bds.length * ads.length) := by
    apply List.map_congr_left
    intro period _
    simp only [Function.comp_apply]
    rw [List.length_flatMap]
    have h2 : List.map (List.length ∘ fun bd => ads.map fun ad => (ad.id, period, bd)) bds
        = bds.map (fun _ => ads.length) := by
      apply List.map_congr_left
      intro bd _
      simp only [Function.comp_apply, List.length_map]
    rw [h2, sum_map_constant]
  rw [h1, sum_map_constant]

theorem fanoutKeys_nodup {periods : List String} {bds : List (List String)} {ads : List Ad}
    (hp : periods.Nodup) (hb : bds.Nodup) (ha : (ads.map Ad.id).Nodup) :
    (fanoutKeys periods bds ads).Nodup := by
  unfold fanoutKeys
  rw [List.nodup_flatMap]
  refine ⟨?_, ?_⟩
  · intro period _
    rw [List.nodup_flatMap]
    refine ⟨?_, ?_⟩
    · intro bd _
      have hmm : (ads.map fun ad => (ad.id, period, bd))
          = (ads.map Ad.id).map (fun i => (i, period, bd)) := by
        rw [List.map_map]
        rfl
      rw [hmm]
      refine List.Nodup.map ?_ ha
      intro i j hij
      exact congrArg Prod.fst hij
    · refine hb.imp ?_
      intro bd1 bd2 hne x hx1 hx2
      rcases List.mem_map.mp hx1 with ⟨ad1, _, rfl⟩
      rcases List.mem_map.mp hx2 with ⟨ad2, _, heq⟩
      exact hne (congrArg (fun t => t.2.2) heq).symm
  · refine hp.imp ?_
    intro per1 per2 hne x hx1 hx2
    rcases List.mem_flatMap.mp hx1 with ⟨bd1, _, hx1m⟩
    rcases List.mem_flatMap.mp hx2 with ⟨bd2, _, hx2m⟩
    rcases List.mem_map.mp hx1m with ⟨ad1, _, rfl⟩
    rcases List.mem_map.mp hx2m with ⟨ad2, _, heq⟩
    exact hne (congrArg (fun t => t.2.1) heq).symm

theorem brokenDownInsights_error {g : GraphApi} {metrics : List String} {userId : String}
    {periods : List String} {bds : List (List String)} {ads : List Ad} {fe : FanoutError}
    (h : brokenDownInsights g metrics userId periods bds ads = Except.error fe) :
    ∃ per ∈ periods, ∃ bd ∈ bds, ∃ ad ∈ ads,
      fe.failedRequest = ⟨ad.id, per, bd⟩ ∧
      fetchAdInsights g metrics ad.id per bd = Except.error fe.cause := by
  unfold brokenDownInsights at h
  rcases (exceptBind_error _ _ _).mp h with h1 | ⟨nested, _, hp⟩
  · rcases mapM_error_exists _ _ _ h1 with ⟨per, hper, hmid⟩
    rcases (exceptBind_error _ _ _).mp hmid with h2 | ⟨m, _, hp2⟩
    · rcases mapM_error_exists _ _ _ h2 with ⟨bd, hbd, hinner⟩
      rcases mapM_error_exists _ _ _ hinner with ⟨ad, had, hrec⟩
      unfold insightRecordFor at hrec
      cases hf : fetchAdInsights g metrics ad.id per bd with
      | error e =>
        rw [hf] at hrec
        cases hrec
        exact ⟨per, hper, bd, hbd, ad, had, rfl, by rw [hf]⟩
      | ok v => rw [hf] at hrec; cases hrec
    · exact absurd hp2 (exceptPure_ne_error _ _)
  · exact absurd hp (exceptPure_ne_error _ _)

theorem loadOne_schema_miss {w : WarehouseClient} {schemas : String → Option Schema}
    {cache : List (String × TableHandle)} {r : InsightRecord}
    (hc : cache.lookup (recordTableName r.period r.breakdowns) = none)
    (hs : schemas (recordTableName r.period r.breakdowns) = none) :
    loadOne w schemas cache r =
      Except.error (LoadError.UnknownSchemaError (recordTableName r.period r.breakdowns)) := by
  simp [loadOne, hc, hs]

theorem loadOne_ok {w : WarehouseClient} {schemas : String → Option Schema}
    {cache cache2 : List (String × TableHandle)} {r : InsightRecord} {call : InsertCall}
    (hc : cacheConsistent w schemas cache)
    (h : loadOne w schemas cache r = Except.ok (cache2, call)) :
    cacheConsistent w schemas cache2 ∧ call.record = r ∧
      ∃ s, schemas (recordTableName r.period r.breakdowns) = some s ∧
        call.table = w.getTable (fullyQualifiedTableName w.projectId
          (recordTableName r.period r.breakdowns)) s := by
  simp only [loadOne] at h
  cases hl : cache.lookup (recordTableName r.period r.breakdowns) with
  | some t =>
    rw [hl] at h
    rw [Except.ok.injEq, Prod.mk.injEq] at h
    obtain ⟨rfl, rfl⟩ := h
    rcases hc _ (lookup_mem hl) with ⟨s, hs, ht⟩
    exact ⟨hc, rfl, s, hs, ht⟩
  | none =>
    rw [hl] at h
    cases hsc : schemas (recordTableName r.period r.breakdowns) with
    | none => rw [hsc] at h; cases h
    | some s =>
      rw [hsc] at h
      rw [Except.ok.injEq, Prod.mk.injEq] at h
      obtain ⟨hcache2, rfl⟩ := h
      refine ⟨?_, rfl, s, rfl, rfl⟩
      intro p hp
      rw [← hcache2] at hp
      rcases List.mem_cons.mp hp with rfl | hp2
      · exact ⟨s, hsc, rfl⟩
      · exact hc _ hp2

theorem loadOne_preserves_miss {w : WarehouseClient} {schemas : String → Option Schema}
    {cache cache2 : List (String × TableHandle)} {x : InsightRecord} {call : InsertCall}
    {tn : String}
    (h : loadOne w schemas cache x = Except.ok (cache2, call))
    (hmiss : cache.lookup tn = none) (hs : schemas tn = none) :
    cache2.lookup tn = none := by
  simp only [loadOne] at h
  cases hl : cache.lookup (recordTableName x.period x.breakdowns) with
  | some t =>
    rw [hl] at h
    rw [Except.ok.injEq, Prod.mk.injEq] at h
    obtain ⟨rfl, _⟩ := h
    exact hmiss
  | none =>
    rw [hl] at h
    cases hsc : schemas (recordTableName x.period x.breakdowns) with
    | none => rw [hsc] at h; cases h
    | some s =>
      rw [hsc] at h
      rw [Except.ok.injEq, Prod.mk.injEq] at h
      obtain ⟨hcache2, _⟩ := h
      rw [← hcache2, List.lookup_cons]
      cases htn : (tn == recordTableName x.period x.breakdowns) with
      | true =>
        exfalso
        have : tn = recordTableName x.period x.breakdowns := by simpa using htn
        rw [this, hsc] at hs
        cases hs
      | false => simpa using hmiss

theorem loadAll_routes {w : WarehouseClient} {schemas : String → Option Schema} :
    ∀ (records : List InsightRecord) (cache : List (String × TableHandle))
      (calls : List InsertCall),
      cacheConsistent w schemas cache →
      loadAll w schemas cache records = Except.ok calls →
      ∀ c ∈ calls, ∃ s,
        schemas (recordTableName c.record.period c.record.breakdowns) = some s ∧
        c.table = w.getTable (fullyQualifiedTableName w.projectId
          (recordTableName c.record.period c.record.breakdowns)) s := by
  intro records
  induction records with
  | nil =>
    intro cache calls hc h c hmem
    simp only [loadAll] at h
    rw [Except.ok.injEq] at h
    subst h
    cases hmem
  | cons r rs ih =>
    intro cache calls hc h c hmem
    simp only [loadAll] at h
    rcases (exceptBind_ok _ _ _).mp h with ⟨⟨cache2, call⟩, h1, h2⟩
    rcases (exceptBind_ok _ _ _).mp h2 with ⟨rest, hrest, hpure⟩
    rw [exceptPure_ok] at hpure
    subst hpure
    rcases loadOne_ok hc h1 with ⟨hc2, hcall, s, hs, ht⟩
    rcases List.mem_cons.mp hmem with rfl | hmem2
    · exact ⟨s, by rw [hcall]; exact hs, by rw [hcall]; exact ht⟩
    · exact ih cache2 rest hc2 hrest c hmem2

theorem loadAll_unknown_schema {w : WarehouseClient} {schemas : String → Option Schema}
    {r : InsightRecord}
    (hs : schemas (recordTableName r.period r.breakdowns) = none) :
    ∀ (records : List InsightRecord) (cache : List (String × TableHandle)),
      r ∈ records →
      cache.lookup (recordTableName r.period r.breakdowns) = none →
      ∃ t, loadAll w schemas cache records =
        Except.error (LoadError.UnknownSchemaError t) := by
  intro records
  induction records with
  | nil => intro cache hmem _; cases hmem
  | cons x rs ih =>
    intro cache hmem hcache
    rcases List.mem_cons.mp hmem with rfl | hmem2
    · refine ⟨recordTableName r.period r.breakdowns, ?_⟩
      simp only [loadAll]
      rw [loadOne_schema_miss hcache hs]
      rfl
    · cases hone : loadOne w schemas cache x with
      | error e =>
        cases e with
        | UnknownSchemaError t =>
          refine ⟨t, ?_⟩
          simp only [loadAll]
          rw [hone]
          rfl
      | ok pr =>
        obtain ⟨cache2, call⟩ := pr
        have hmiss2 := loadOne_preserves_miss hone hcache hs
        rcases ih cache2 hmem2 hmiss2 with ⟨t, ht⟩
        refine ⟨t, ?_⟩
        simp only [loadAll]
        rw [hone]
        simp only [Bind.bind, Except.bind]
        rw [ht]

theorem loadPhaseACalls_nil_cache_length :
    ∀ records : List InsightRecord, (loadPhaseACalls [] records).length = records.length := by
  intro records
  induction records with
  | nil => rfl
  | cons r rs ih => simp [loadPhaseACalls, List.contains_nil, ih]

/-- C1: for every collection of ads, periods and breakdown combinations
(duplicate-free ad ids, periods and combinations), a successful
`brokenDownInsights` run produces exactly |ads|·|periods|·|breakdowns|
records, each carrying a distinct (adId, period, breakdowns) key — hence
no (ad, period, breakdown) combination is requested more than once per
pipeline run. -/
theorem C1_fanout_matrix (g : GraphApi) (metrics : List String) (userId : String)
    (periods : List String) (bds : List (List String)) (ads : List Ad)
    (recs : List InsightRecord)
    (hok : brokenDownInsights g metrics userId periods bds ads = Except.ok recs)
    (hp : periods.Nodup) (hb : bds.Nodup) (ha : (ads.map Ad.id).Nodup) :
    recs.length = ads.length * periods.length * bds.length ∧
    (recs.map insightKey).Nodup := by
  have hkeys := brokenDownInsights_ok_keys hok
  constructor
  · have h1 : recs.length = (recs.map insightKey).length := (List.length_map _ _).symm
    rw [h1, hkeys, fanoutKeys_length]
    ring
  · rw [hkeys]
    exact fanoutKeys_nodup hp hb ha

/-- C1 witness: one ad under the configured two periods and two breakdown
combinations yields 1·2·2 = 4 records with pairwise distinct keys. -/
theorem C1_fanout_matrix_witness :
    recsW.length = [adW].length * PERIODS_keys.length * BREAKDOWNS.length ∧
    (recsW.map insightKey).Nodup :=
  C1_fanout_matrix gW ["impressions"] "u" PERIODS_keys BREAKDOWNS [adW] recsW
    (by decide) (by decide) (by decide) (by decide)

/-- C2 counterexample: the table name the loader computes for period
`daily` and breakdowns `[age, gender]` is
`facebook_ads_insights_daily_age_gender`, not the
`ads_insights_{period}_{breakdowns}` pattern the claim states
(`specTableName`). -/
theorem C2_counterexample :
    recordTableName "daily" ["age", "gender"] = "facebook_ads_insights_daily_age_gender" ∧
    recordTableName "daily" ["age", "gender"] ≠ "ads_insights_daily_age_gender" ∧
    recordTableName "daily" ["age", "gender"] ≠ specTableName "daily" ["age", "gender"] :=
  ⟨by decide, by decide, by decide⟩

/-- C2 amended: records are routed to tables named
`facebook_ads_insights_{period}_{breakdown names joined by underscore}`
(the `facebook_` prefix is part of the name), fully qualified as
`{project}.facebook_ads_insights.{tableName}` with the dataset fixed; the
same (period, breakdowns) pair always yields the same name, and every
insert of a successful load targets the handle obtained for exactly that
fully qualified name and its registered schema. -/
theorem C2_amended_naming (w : WarehouseClient) (schemas : String → Option Schema)
    (records : List InsightRecord) (calls : List InsertCall)
    (hok : loadAll w schemas [] records = Except.ok calls) :
    (∀ period bd, recordTableName period bd =
        "facebook_ads_insights_" ++ period ++ "_" ++ String.intercalate "_" bd) ∧
    (∀ tname, fullyQualifiedTableName w.projectId tname =
        w.projectId ++ "." ++ "facebook_ads_insights" ++ "." ++ tname) ∧
    (∀ p1 b1 p2 b2, p1 = p2 → b1 = b2 → recordTableName p1 b1 = recordTableName p2 b2) ∧
    (∀ c ∈ calls, ∃ s,
        schemas (recordTableName c.record.period c.record.breakdowns) = some s ∧
        c.table = w.getTable (fullyQualifiedTableName w.projectId
          (recordTableName c.record.period c.record.breakdowns)) s) := by
  refine ⟨fun period bd => rfl, ?_, fun p1 b1 p2 b2 h1 h2 => by rw [h1, h2], ?_⟩
  · intro tname
    have lit1 : ("." : String) ++ "facebook_ads_insights" = ".facebook_ads_insights" := by
      decide
    have lit2 : (".facebook_ads_insights" : String) ++ "." = ".facebook_ads_insights." := by
      decide
    have e1 : w.projectId ++ "." ++ "facebook_ads_insights" =
        w.projectId ++ ".facebook_ads_insights" := by
      rw [String.append_assoc, lit1]
    have e2 : w.projectId ++ ".facebook_ads_insights" ++ "." =
        w.projectId ++ ".facebook_ads_insights." := by
      rw [String.append_assoc, lit2]
    rw [fullyQualifiedTableName, e1, e2]
  · intro c hmem
    exact loadAll_routes records [] calls
      (fun p hp => absurd hp (List.not_mem_nil p)) hok c hmem

/-- C2 witness: a concrete successful load of one (daily, [age, gender])
record routes it to
`proj.facebook_ads_insights.facebook_ads_insights_daily_age_gender`. -/
theorem C2_amended_naming_witness :
    (∀ period bd, recordTableName period bd =
        "facebook_ads_insights_" ++ period ++ "_" ++ String.intercalate "_" bd) ∧
    (∀ tname, fullyQualifiedTableName w0.projectId tname =
        w0.projectId ++ "." ++ "facebook_ads_insights" ++ "." ++ tname) ∧
    (∀ p1 b1 p2 b2, p1 = p2 → b1 = b2 → recordTableName p1 b1 = recordTableName p2 b2) ∧
    (∀ c ∈ callsW, ∃ s,
        schemasAll (recordTableName c.record.period c.record.breakdowns) = some s ∧
        c.table = w0.getTable (fullyQualifiedTableName w0.projectId
          (recordTableName c.record.period c.record.breakdowns)) s) :=
  C2_amended_naming w0 schemasAll [rAG] callsW (by decide)

/-- C3: with source Business, resolution issues one `/me/businesses` call
and then one owned-ad-accounts call per business, and merges the
per-business results into a single flat sequence; in particular, for two
businesses owning one account each it returns exactly those two accounts. -/
theorem C3_business_resolution (g : GraphApi) :
    (fetchAdAccounts g AD_ACCOUNT_SOURCES_business).2 =
      "/me/businesses" :: g.meBusinesses.map (fun b => "/" ++ b.id ++ "/owned_ad_accounts") ∧
    (fetchAdAccounts g AD_ACCOUNT_SOURCES_business).1 =
      Except.ok ((g.meBusinesses.map (fun b => g.ownedAdAccounts b.id)).flatten) ∧
    (∀ b1 b2 a1 a2, g.meBusinesses = [b1, b2] →
      g.ownedAdAccounts b1.id = [a1] → g.ownedAdAccounts b2.id = [a2] →
      (fetchAdAccounts g AD_ACCOUNT_SOURCES_business).1 = Except.ok [a1, a2]) := by
  have hbp : AD_ACCOUNT_SOURCES_business ≠ AD_ACCOUNT_SOURCES_personal := by decide
  have hres : fetchAdAccounts g AD_ACCOUNT_SOURCES_business =
      (Except.ok ((g.meBusinesses.map (fun b => g.ownedAdAccounts b.id)).flatten),
        "/me/businesses" :: g.meBusinesses.map (fun b => "/" ++ b.id ++ "/owned_ad_accounts")) := by
    rw [fetchAdAccounts, if_neg hbp, if_pos rfl]
    rfl
  refine ⟨by rw [hres], by rw [hres], ?_⟩
  intro b1 b2 a1 a2 hb h1 h2
  rw [hres, hb]
  simp [h1, h2]

/-- C3 witness: in the sample world whose two businesses own `acct1` and
`acct2` respectively, business resolution returns exactly those two
accounts, flat. -/
theorem C3_business_resolution_witness :
    (fetchAdAccounts gW AD_ACCOUNT_SOURCES_business).1 =
      Except.ok [AdAccount.mk "acct1", AdAccount.mk "acct2"] :=
  (C3_business_resolution gW).2.2 (Business.mk "b1") (Business.mk "b2")
    (AdAccount.mk "acct1") (AdAccount.mk "acct2") rfl (by decide) (by decide)

/-- C4: every insights call carries the full fixed metric list as fields
and the chosen breakdown dimensions; it includes time_increment = 1 iff
the period is daily, and for lifetime no time increment is sent. -/
theorem C4_insights_payload (g : GraphApi) (adId : String)
    (metrics : List String) (period : String) (bd : List String) :
    fetchAdInsights g metrics adId period bd =
      g.adInsights adId (insightsPayload metrics period bd) ∧
    (insightsPayload metrics period bd).fields = metrics ∧
    (insightsPayload metrics period bd).breakdowns = bd ∧
    ((insightsPayload metrics period bd).time_increment = some 1 ↔ period = "daily") ∧
    (period = "lifetime" → (insightsPayload metrics period bd).time_increment = none) := by
  refine ⟨rfl, rfl, rfl, ?_, ?_⟩
  · by_cases h : period = "daily"
    · simp [insightsPayload, h]
    · simp [insightsPayload, h]
  · intro h
    subst h
    simp only [insightsPayload]
    rw [if_neg (by decide)]

/-- C4 witness: at period daily a one-day time increment is present; at
period lifetime no time increment is sent. -/
theorem C4_insights_payload_witness :
    ((insightsPayload ["impressions"] "daily" ["age", "gender"]).time_increment = some 1 ↔
      "daily" = "daily") ∧
    ("lifetime" = "lifetime" →
      (insightsPayload ["impressions"] "lifetime" ["age", "gender"]).time_increment = none) :=
  ⟨(C4_insights_payload gW "ad1" ["impressions"] "daily" ["age", "gender"]).2.2.2.1,
   (C4_insights_payload gW "ad1" ["impressions"] "lifetime" ["age", "gender"]).2.2.2.2⟩

/-- C5: when a record's table name misses the cache and no schema is
registered for that exact name, resolving that record fails with
UnknownSchemaError, and the whole load run aborts with an
UnknownSchemaError rather than proceeding without a schema. -/
theorem C5_unknown_schema (w : WarehouseClient) (schemas : String → Option Schema)
    (cache : List (String × TableHandle)) (records : List InsightRecord)
    (r : InsightRecord) (hmem : r ∈ records)
    (hcache : cache.lookup (recordTableName r.period r.breakdowns) = none)
    (hschema : schemas (recordTableName r.period r.breakdowns) = none) :
    loadOne w schemas cache r =
      Except.error (LoadError.UnknownSchemaError (recordTableName r.period r.breakdowns)) ∧
    ∃ t, loadAll w schemas cache records = Except.error (LoadError.UnknownSchemaError t) :=
  ⟨loadOne_schema_miss hcache hschema,
   loadAll_unknown_schema hschema records cache hmem hcache⟩

/-- C5 witness: with an empty registry, loading one (daily, [age, gender])
record fails with UnknownSchemaError for its table name. -/
theorem C5_unknown_schema_witness :
    loadOne w0 schemasNone [] rAG =
      Except.error (LoadError.UnknownSchemaError (recordTableName rAG.period rAG.breakdowns)) ∧
    ∃ t, loadAll w0 schemasNone [] [rAG] = Except.error (LoadError.UnknownSchemaError t) :=
  C5_unknown_schema w0 schemasNone [] [rAG] rAG (by decide) rfl rfl

/-- C6: resolving accounts with any source other than the two defined
values fails with UnknownSourceError and issues no remote calls (the call
trace is empty). -/
theorem C6_unknown_source (g : GraphApi) (source : String)
    (h1 : source ≠ AD_ACCOUNT_SOURCES_personal)
    (h2 : source ≠ AD_ACCOUNT_SOURCES_business) :
    fetchAdAccounts g source =
      (Except.error (ResolveError.UnknownSourceError source
        ("Unknown ad accounts source " ++ source)), []) := by
  rw [fetchAdAccounts, if_neg h1, if_neg h2]

/-- C6 witness: the source string `oops` is rejected with
UnknownSourceError and an empty call trace. -/
theorem C6_unknown_source_witness :
    fetchAdAccounts gW "oops" =
      (Except.error (ResolveError.UnknownSourceError "oops"
        ("Unknown ad accounts source " ++ "oops")), []) :=
  C6_unknown_source gW "oops" (by decide) (by decide)

/-- C7: if any single fan-out unit's insights call fails permanently, the
whole fan-out fails with a FanoutError identifying a request of the
matrix whose call really fails, and no (partial) record list is
returned. -/
theorem C7_fanout_fail_fast (g : GraphApi) (metrics : List String) (userId : String)
    (periods : List String) (bds : List (List String)) (ads : List Ad)
    (per : String) (bd : List String) (ad : Ad) (cause : ApiCause)
    (hper : per ∈ periods) (hbd : bd ∈ bds) (had : ad ∈ ads)
    (hfail : fetchAdInsights g metrics ad.id per bd = Except.error cause) :
    ∃ fe : FanoutError,
      brokenDownInsights g metrics userId periods bds ads = Except.error fe ∧
      fe.failedRequest.period ∈ periods ∧
      fe.failedRequest.breakdowns ∈ bds ∧
      (∃ a ∈ ads, a.id = fe.failedRequest.adId) ∧
      fetchAdInsights g metrics fe.failedRequest.adId fe.failedRequest.period
        fe.failedRequest.breakdowns = Except.error fe.cause ∧
      ∀ l, brokenDownInsights g metrics userId periods bds ads ≠ Except.ok l := by
  cases hres : brokenDownInsights g metrics userId periods bds ads with
  | ok recs =>
    exfalso
    unfold brokenDownInsights at hres
    rcases (exceptBind_ok _ _ _).mp hres with ⟨nested, hn, _⟩
    rcases forall₂_mem_left (mapM_ok_forall₂ _ _ _ hn) hper with ⟨l1, _, hmid⟩
    rcases (exceptBind_ok _ _ _).mp hmid with ⟨m, hm, _⟩
    rcases forall₂_mem_left (mapM_ok_forall₂ _ _ _ hm) hbd with ⟨l2, _, hinner⟩
    rcases forall₂_mem_left (mapM_ok_forall₂ _ _ _ hinner) had with ⟨r, _, hrec⟩
    unfold insightRecordFor at hrec
    rw [hfail] at hrec
    cases hrec
  | error fe =>
    rcases brokenDownInsights_error hres with ⟨per2, hper2, bd2, hbd2, ad2, had2, hreq, hcall⟩
    refine ⟨fe, rfl, ?_, ?_, ⟨ad2, had2, ?_⟩, ?_, fun l hl => Except.noConfusion hl⟩
    · rw [hreq]; exact hper2
    · rw [hreq]; exact hbd2
    · rw [hreq]
    · rw [hreq]; exact hcall

/-- C7 witness: in a world where every insights call fails, the fan-out
over one ad, one period and one breakdown combination fails with a
FanoutError identifying that unit and returns no record list. -/
theorem C7_fanout_fail_fast_witness :
    ∃ fe : FanoutError,
      brokenDownInsights gFail ["impressions"] "u" ["daily"] [["age", "gender"]] [adW] =
        Except.error fe ∧
      fe.failedRequest.period ∈ ["daily"] ∧
      fe.failedRequest.breakdowns ∈ [["age", "gender"]] ∧
      (∃ a ∈ [adW], a.id = fe.failedRequest.adId) ∧
      fetchAdInsights gFail ["impressions"] fe.failedRequest.adId fe.failedRequest.period
        fe.failedRequest.breakdowns = Except.error fe.cause ∧
      ∀ l, brokenDownInsights gFail ["impressions"] "u" ["daily"] [["age", "gender"]] [adW] ≠
        Except.ok l :=
  C7_fanout_fail_fast gFail ["impressions"] "u" ["daily"] [["age", "gender"]] [adW]
    "daily" ["age", "gender"] adW "boom" (by decide) (by decide) (by decide) rfl

/-- C8 (refuting the code): two concurrent records destined for the same
not-yet-cached table `facebook_ads_insights_daily_age_gender` issue TWO
`getTable` calls, not one — in the synchronous phase of
`Promise.all(records.map(async ...))` every body checks the still-empty
cache before any `await` resolves, so the bare check-then-act cache of
lines 90–94 is not single-flight. -/
theorem C8_duplicate_getTable_calls :
    loadPhaseACalls [] [rAG, rAG2] =
      ["facebook_ads_insights_daily_age_gender", "facebook_ads_insights_daily_age_gender"] ∧
    (loadPhaseACalls [] [rAG, rAG2]).length = 2 ∧
    (loadPhaseACalls [] [rAG, rAG2]).length ≠ 1 :=
  ⟨by decide, by decide, by decide⟩

/-- C9 counterexample: the warehouse-insertion stage is not run under any
bounded-concurrency cap — the number of get-or-create calls in flight
after its synchronous phase equals the number of records, so no
configurable limit bounds it. -/
theorem C9_counterexample :
    ¬ ∃ c : Nat, ∀ records : List InsightRecord,
      (loadPhaseACalls [] records).length ≤ c := by
  rintro ⟨c, h⟩
  have h2 := h (List.replicate (c + 1) rAG)
  rw [loadPhaseACalls_nil_cache_length, List.length_replicate] at h2
  omega

/-- C9 amended: the three remote-API expansions (business→accounts,
account→ads, insights fan-out) run through the bounded `paralellize`
executor, whose in-flight count never exceeds the configured limit; the
per-record warehouse insertion instead runs through unbounded
`Promise.all`, whose in-flight count equals the record count. -/
theorem C9_amended_concurrency (limit n : Nat) (records : List InsightRecord) :
    (businessExpansionExecutor limit).initialInFlight n ≤ limit ∧
    (adsExpansionExecutor limit).initialInFlight n ≤ limit ∧
    (fanoutExecutor limit).initialInFlight n ≤ limit ∧
    insertionExecutor.initialInFlight records.length = records.length ∧
    (loadPhaseACalls [] records).length = records.length := by
  refine ⟨?_, ?_, ?_, rfl, loadPhaseACalls_nil_cache_length records⟩
  all_goals
    simp [businessExpansionExecutor, adsExpansionExecutor, fanoutExecutor,
      Executor.initialInFlight]

/-- C10: the configured dimensions are the fixed constants
periods = [daily, lifetime] and breakdowns = [[age, gender],
[country, region]], so a successful run issues exactly 4 insight requests
per ad (4·|ads| records) and routes records to at most 4 distinct
warehouse table names. -/
theorem C10_fixed_dimensions (g : GraphApi) (metrics : List String) (userId : String)
    (ads : List Ad) (recs : List InsightRecord)
    (hok : brokenDownInsights g metrics userId PERIODS_keys BREAKDOWNS ads = Except.ok recs) :
    PERIODS_keys = ["daily", "lifetime"] ∧
    BREAKDOWNS = [["age", "gender"], ["country", "region"]] ∧
    recs.length = 4 * ads.length ∧
    (recs.map (fun r => recordTableName r.period r.breakdowns)).toFinset.card ≤ 4 := by
  have hkeys := brokenDownInsights_ok_keys hok
  refine ⟨rfl, rfl, ?_, ?_⟩
  · have h1 : recs.length = (recs.map insightKey).length := (List.length_map _ _).symm
    rw [h1, hkeys, fanoutKeys_length]
    simp only [PERIODS_keys, BREAKDOWNS, List.length_cons, List.length_nil]
    ring
  · have hsub : (recs.map (fun r => recordTableName r.period r.breakdowns)).toFinset ⊆
        ({recordTableName "daily" ["age", "gender"],
          recordTableName "daily" ["country", "region"],
          recordTableName "lifetime" ["age", "gender"],
          recordTableName "lifetime" ["country", "region"]} : Finset String) := by
      intro x hx
      rw [List.mem_toFinset] at hx
      rcases List.mem_map.mp hx with ⟨r, hr, rfl⟩
      have hkmem : insightKey r ∈ fanoutKeys PERIODS_keys BREAKDOWNS ads := by
        rw [← hkeys]
        exact List.mem_map_of_mem _ hr
      rcases List.mem_flatMap.mp hkmem with ⟨per, hper, hk2⟩
      rcases List.mem_flatMap.mp hk2 with ⟨bd, hbd, hk3⟩
      rcases List.mem_map.mp hk3 with ⟨ad, _, heq⟩
      have hpeq : per = r.period := congrArg (fun t => t.2.1) heq
      have hbeq : bd = r.breakdowns := congrArg (fun t => t.2.2) heq
      rw [← hpeq, ← hbeq]
      simp only [PERIODS_keys, List.mem_cons, List.not_mem_nil, or_false] at hper
      simp only [BREAKDOWNS, List.mem_cons, List.not_mem_nil, or_false] at hbd
      rcases hper with rfl | rfl <;> rcases hbd with rfl | rfl <;> simp
    exact le_trans (Finset.card_le_card hsub) (by decide)

/-- C10 witness: with one ad, the run produces 4 records and at most 4
distinct table names. -/
theorem C10_fixed_dimensions_witness :
    PERIODS_keys = ["daily", "lifetime"] ∧
    BREAKDOWNS = [["age", "gender"], ["country", "region"]] ∧
    recsW.length = 4 * [adW].length ∧
    (recsW.map (fun r => recordTableName r.period r.breakdowns)).toFinset.card ≤ 4 :=
  C10_fixed_dimensions gW ["impressions"] "u" [adW] recsW (by decide)
